import Mathlib

/-!
Shallow embedding of the core of the `rmap` port scanner (Rust) and proofs
about it.  Strings are modelled as `List Char` (the sources are ASCII), bytes
as `Nat` below 256, and machine integers as `Nat` with explicit bounds.

Module map:
* `src/core/tcp.rs`  — TCP connect-outcome classification, port-spec parsing,
  the per-port task structure and the global semaphore discipline.
* `src/core/udp.rs`  — UDP per-port probe classification and multi-target
  result merging.
* `src/core/probe/parser.rs`   — probe-string extraction (`q|...|`).
* `src/core/probe/operator.rs` — probe-string escape decoding, response
  matching, version-field capture substitution.
-/

namespace Rmap

/-- `PortState` from `src/core/tcp.rs` (lines 24-29). -/
inductive PortState where
  | Open
  | Closed
  | Filtered
deriving DecidableEq, Repr

/-- The `std::io::ErrorKind` values that `syn_scan` distinguishes
(`src/core/tcp.rs` lines 162-167); every other kind is `other`. -/
inductive ErrorKind where
  | connectionRefused
  | timedOut
  | permissionDenied
  | networkUnreachable
  | hostUnreachable
  | other
deriving DecidableEq, Repr

/-- Outcome of `tokio::time::timeout(.., TcpStream::connect(..))` in
`syn_scan` (`src/core/tcp.rs` lines 120-123): success, an OS error carrying
its kind and textual message, or the orchestrator-level deadline firing. -/
inductive ConnectOutcome where
  | success
  | osError (kind : ErrorKind) (msg : List Char)
  | deadlineTimeout
deriving DecidableEq

/-- Rust `str::contains(needle)` on character lists: `containsSub needle hay`
is true iff `needle` occurs contiguously in `hay`. -/
def containsSub (needle : List Char) : List Char → Bool
  | [] => needle.isEmpty
  | c :: t => needle.isPrefixOf (c :: t) || containsSub needle t

/-- Rust `str::to_lowercase` restricted to ASCII (all messages and search
strings involved are ASCII). -/
def lowerStr (s : List Char) : List Char := s.map Char.toLower

/-- The error-message classification of `syn_scan` for connect errors
(`src/core/tcp.rs` lines 162-181): structured kinds first, then
case-insensitive substring heuristics on the message. -/
def classifyConnectError (kind : ErrorKind) (msg : List Char) : PortState :=
  match kind with
  | .connectionRefused => .Closed
  | .timedOut => .Filtered
  | .permissionDenied => .Filtered
  | .networkUnreachable => .Filtered
  | .hostUnreachable => .Filtered
  | .other =>
    let errorMsg := lowerStr msg
    if containsSub "refused".toList errorMsg then .Closed
    else if containsSub "timeout".toList errorMsg
         || containsSub "unreachable".toList errorMsg
         || containsSub "filtered".toList errorMsg then .Filtered
    else .Closed

/-- Terminal port state of one TCP connect attempt, transliterating the
`match` in `syn_scan` (`src/core/tcp.rs` lines 120-196): success is Open,
an OS error goes through `classifyConnectError`, and the orchestrator
timeout is Filtered. -/
def classifyConnectOutcome : ConnectOutcome → PortState
  | .success => .Open
  | .osError kind msg => classifyConnectError kind msg
  | .deadlineTimeout => .Filtered

/-- C1: for every TCP connect attempt the terminal port state follows the
classification table: success is Open; refused is Closed; timed-out,
permission-denied, network-unreachable and host-unreachable are Filtered;
any other OS error is classified by case-insensitive substring search of its
message (refused gives Closed; timeout, unreachable or filtered gives
Filtered; anything else defaults to Closed); and an attempt cut off by the
orchestrator deadline is Filtered. -/
theorem connect_classification_table (msg : List Char) :
    classifyConnectOutcome .success = .Open ∧
    classifyConnectOutcome (.osError .connectionRefused msg) = .Closed ∧
    classifyConnectOutcome (.osError .timedOut msg) = .Filtered ∧
    classifyConnectOutcome (.osError .permissionDenied msg) = .Filtered ∧
    classifyConnectOutcome (.osError .networkUnreachable msg) = .Filtered ∧
    classifyConnectOutcome (.osError .hostUnreachable msg) = .Filtered ∧
    (containsSub "refused".toList (lowerStr msg) = true →
      classifyConnectOutcome (.osError .other msg) = .Closed) ∧
    (containsSub "refused".toList (lowerStr msg) = false →
      (containsSub "timeout".toList (lowerStr msg)
        || containsSub "unreachable".toList (lowerStr msg)
        || containsSub "filtered".toList (lowerStr msg)) = true →
      classifyConnectOutcome (.osError .other msg) = .Filtered) ∧
    (containsSub "refused".toList (lowerStr msg) = false →
      (containsSub "timeout".toList (lowerStr msg)
        || containsSub "unreachable".toList (lowerStr msg)
        || containsSub "filtered".toList (lowerStr msg)) = false →
      classifyConnectOutcome (.osError .other msg) = .Closed) ∧
    classifyConnectOutcome .deadlineTimeout = .Filtered := by
  refine ⟨rfl, rfl, rfl, rfl, rfl, rfl, ?_, ?_, ?_, rfl⟩
  · intro h
    simp only [classifyConnectOutcome, classifyConnectError]
    rw [h]
    simp
  · intro h1 h2
    simp only [classifyConnectOutcome, classifyConnectError]
    rw [h1, h2]
    simp
  · intro h1 h2
    simp only [classifyConnectOutcome, classifyConnectError]
    rw [h1, h2]
    simp

/-- Witness for `connect_classification_table`: the heuristic tier at the
concrete message "connection reset by peer" defaults to Closed. -/
theorem connect_classification_table_witness :
    classifyConnectOutcome (.osError .other "connection reset by peer".toList)
      = .Closed :=
  (connect_classification_table "connection reset by peer".toList).2.2.2.2.2.2.2.2.1
    (by decide) (by decide)

/-! ### Port-spec parsing (`parse_ports`, `src/core/tcp.rs` 51-75 and
`src/core/udp.rs` 34-60; the two functions are textually identical). -/

/-- Rust `str::trim` (the inputs involved are ASCII). -/
def trimStr (s : List Char) : List Char :=
  ((s.dropWhile Char.isWhitespace).reverse.dropWhile Char.isWhitespace).reverse

/-- Rust `str::parse::<u16>()`: an optional leading plus sign, then at least
one ASCII decimal digit, succeeding iff the value fits in 16 bits. -/
def parseU16 (s : List Char) : Option Nat :=
  let digits := if s.head? = some '+' then s.tail else s
  if !digits.isEmpty && digits.all Char.isDigit then
    let v := digits.foldl (fun acc c => acc * 10 + (c.toNat - 48)) 0
    if v ≤ 65535 then some v else none
  else none

/-- The per-token body of the loop in `parse_ports` (`src/core/tcp.rs`
lines 54-72): a token containing a hyphen is split and, when it has exactly
two parts that both parse as u16, contributes the ascending inclusive range
(`start..=end`, empty when reversed); otherwise the token contributes its
u16 value when it parses, and nothing when it does not. -/
def expandRangeParts (a b : List Char) : List Nat :=
  match parseU16 a, parseU16 b with
  | some s, some e => List.range' s (e + 1 - s)
  | _, _ => []

def expandPortToken (tok : List Char) : List Nat :=
  let part := trimStr tok
  if part.contains '-' then
    match part.splitOn '-' with
    | [a, b] => expandRangeParts a b
    | _ => []
  else
    match parseU16 part with
    | some p => [p]
    | none => []

/-- `TCPScanner::parse_ports` / `UDPScanner::parse_ports`: split the input on
commas and accumulate each token's expansion into one vector. -/
def parse_ports (s : List Char) : List Nat :=
  (s.splitOn ',').foldl (fun acc part => acc ++ expandPortToken part) []

/-- The expansion of a single token exactly as claim C2 words it: a token
that is a single valid u16 contributes itself; a token `a-b` with valid u16
endpoints and `a ≤ b` contributes `a, a+1, ..., b` ascending; every
malformed token (non-numeric, reversed range, out-of-range) contributes
nothing. -/
def claimedRangeParts (a b : List Char) : List Nat :=
  match parseU16 a, parseU16 b with
  | some s, some e => if s ≤ e then List.range' s (e + 1 - s) else []
  | _, _ => []

def claimedTokenExpansion (tok : List Char) : List Nat :=
  let part := trimStr tok
  match parseU16 part with
  | some p => [p]
  | none =>
    match part.splitOn '-' with
    | [a, b] => claimedRangeParts a b
    | _ => []

lemma all_isDigit_false_of_dash {t : List Char} (ht : '-' ∈ t) :
    t.all Char.isDigit = false := by
  rw [← Bool.not_eq_true, List.all_eq_true]
  exact fun hall => absurd (hall _ ht) (by decide)

lemma parseU16_of_mem_dash {s : List Char} (h : '-' ∈ s) : parseU16 s = none := by
  unfold parseU16
  by_cases hh : s.head? = some '+'
  · have hs : s = '+' :: s.tail := by
      cases s with
      | nil => simp at hh
      | cons a t =>
        simp only [List.head?_cons, Option.some.injEq] at hh
        subst hh; rfl
    have hm : '-' ∈ s.tail := by
      rw [hs] at h
      rcases List.mem_cons.mp h with h1 | h1
      · exact absurd h1 (by decide)
      · exact h1
    simp [hh, all_isDigit_false_of_dash hm]
  · simp [hh, all_isDigit_false_of_dash h]

lemma splitOn_dash_single {s : List Char} (h : s.contains '-' = false) :
    s.splitOn '-' = [s] := by
  unfold List.splitOn
  apply List.splitOnP_eq_single
  intro x hx hbeq
  have hxd : x = '-' := by simpa using hbeq
  subst hxd
  rw [show s.contains '-' = s.elem '-' from rfl, List.elem_iff.mpr hx] at h
  cases h

lemma range'_eq_ite_range' (s e : Nat) :
    List.range' s (e + 1 - s) = if s ≤ e then List.range' s (e + 1 - s) else [] := by
  by_cases h : s ≤ e
  · rw [if_pos h]
  · rw [if_neg h, Nat.sub_eq_zero_of_le (Nat.succ_le_of_lt (Nat.lt_of_not_le h))]
    rfl

lemma expandRangeParts_eq_claimed (a b : List Char) :
    expandRangeParts a b = claimedRangeParts a b := by
  unfold expandRangeParts claimedRangeParts
  cases parseU16 a with
  | none => rfl
  | some x =>
    cases parseU16 b with
    | none => rfl
    | some y => exact range'_eq_ite_range' x y

lemma expandPortToken_eq_claimed (tok : List Char) :
    expandPortToken tok = claimedTokenExpansion tok := by
  unfold expandPortToken claimedTokenExpansion
  dsimp only
  by_cases hc : (trimStr tok).contains '-'
  · have hmem : '-' ∈ trimStr tok := List.elem_iff.mp hc
    rw [if_pos hc, parseU16_of_mem_dash hmem]
    rcases (trimStr tok).splitOn '-' with _ | ⟨a, _ | ⟨b, _ | ⟨c, rest⟩⟩⟩
    · rfl
    · rfl
    · exact expandRangeParts_eq_claimed a b
    · rfl
  · rw [if_neg hc]
    cases hp : parseU16 (trimStr tok) with
    | some p => rfl
    | none =>
      rw [splitOn_dash_single (Bool.eq_false_iff.mpr hc)]

lemma foldl_append_eq_flatMap {α β : Type} (f : α → List β) (l : List α)
    (init : List β) :
    l.foldl (fun acc x => acc ++ f x) init = init ++ l.flatMap f := by
  induction l generalizing init with
  | nil => simp
  | cons a t ih => simp [ih, List.append_assoc]

/-- C2: for every input string, `parse_ports` returns the concatenation, in
textual token order, of each comma-delimited token's expansion (a valid u16
contributes itself, a range `a-b` with `a ≤ b` contributes `a..b` ascending,
malformed tokens contribute nothing), and empty or all-malformed input
yields the empty sequence — the parser is a total function, so no input is
ever an error. -/
theorem port_spec_parsing (s : List Char) :
    parse_ports s = (s.splitOn ',').flatMap claimedTokenExpansion ∧
    parse_ports [] = [] ∧
    parse_ports "80,443,1000-1002".toList = [80, 443, 1000, 1001, 1002] ∧
    parse_ports "abc,70-65".toList = [] := by
  refine ⟨?_, by decide, by decide, by decide⟩
  rw [parse_ports, foldl_append_eq_flatMap, List.nil_append,
    show expandPortToken = claimedTokenExpansion from
      funext expandPortToken_eq_claimed]

/-! ### Probe-string extraction and escape decoding
(`src/core/probe/parser.rs` 178-194 and `src/core/probe/operator.rs`
306-353).  `parse_probe_string` is what the `Probe` line handler stores into
`ProbeEntry.probe_string` (`parser.rs` line 75); `decode_probe_string` is
applied to that stored string by `try_probe` when the probe is sent
(`operator.rs` line 175). -/

/-- Rust `str::find(char)`: index of the first occurrence. -/
def strFind (c : Char) : List Char → Option Nat
  | [] => none
  | a :: t => if a = c then some 0 else (strFind c t).map (· + 1)

/-- Rust `str::rfind(char)`: index of the last occurrence. -/
def strRFind (c : Char) (l : List Char) : Option Nat :=
  (strFind c l.reverse).map (fun i => l.length - 1 - i)

/-- `parse_probe_string` (`src/core/probe/parser.rs` 178-194): when the
source starts with `q` and is longer than two characters, the delimiter is
the character right after `q`, and the result is the text strictly between
the first and last occurrence of that delimiter (when they differ);
otherwise the source is returned unchanged.  No escape decoding happens
here. -/
def parse_probe_string (s : List Char) : List Char :=
  if s.head? = some 'q' ∧ 2 < s.length then
    match s.get? 1 with
    | some d =>
      match strFind d s, strRFind d s with
      | some start, some stop =>
        if start ≠ stop then (s.take stop).drop (start + 1) else s
      | _, _ => s
    | none => s
  else s

/-- One hexadecimal digit (both cases), as in Rust `from_str_radix(_, 16)`. -/
def hexDigitVal (c : Char) : Option Nat :=
  if '0' ≤ c ∧ c ≤ '9' then some (c.toNat - 48)
  else if 'a' ≤ c ∧ c ≤ 'f' then some (c.toNat - 87)
  else if 'A' ≤ c ∧ c ≤ 'F' then some (c.toNat - 55)
  else none

/-- Rust `u8::from_str_radix(&format!("{}{}", h1, h2), 16)` on exactly two
characters: an optional leading plus sign, then hex digits. -/
def parseHexByte (h1 h2 : Char) : Option Nat :=
  if h1 = '+' then hexDigitVal h2
  else
    match hexDigitVal h1, hexDigitVal h2 with
    | some d1, some d2 => some (16 * d1 + d2)
    | _, _ => none

/-- `Prober::decode_probe_string` (`src/core/probe/operator.rs` 306-353):
resolve the escape sequences backslash-n/r/t/0/backslash/xHH into bytes; a
backslash before any other character is emitted literally without consuming
that character; after `\x` the two following characters (padded with `0`
when the input ends) are parsed as hex, and dropped when unparsable; plain
characters are truncated to a byte (`as u8`). -/
def decode_probe_string : List Char → List Nat
  | [] => []
  | ['\\'] => [92]
  | '\\' :: 'n' :: rest => 10 :: decode_probe_string rest
  | '\\' :: 'r' :: rest => 13 :: decode_probe_string rest
  | '\\' :: 't' :: rest => 9 :: decode_probe_string rest
  | '\\' :: '0' :: rest => 0 :: decode_probe_string rest
  | '\\' :: '\\' :: rest => 92 :: decode_probe_string rest
  | ['\\', 'x'] =>
    (match parseHexByte '0' '0' with | some b => [b] | none => [])
  | ['\\', 'x', h1] =>
    (match parseHexByte h1 '0' with | some b => [b] | none => [])
  | '\\' :: 'x' :: h1 :: h2 :: rest =>
    (match parseHexByte h1 h2 with
     | some b => b :: decode_probe_string rest
     | none => decode_probe_string rest)
  | '\\' :: c :: rest => 92 :: decode_probe_string (c :: rest)
  | c :: rest => (c.toNat % 256) :: decode_probe_string rest

/-- The payload bytes `try_probe` sends for a stored probe string
(`src/core/probe/operator.rs` line 175): escape decoding is applied at send
time. -/
def sent_probe_payload (stored : List Char) : List Nat :=
  decode_probe_string stored

/-- The raw bytes of a stored string (`as u8` per character; stored probe
strings are ASCII). -/
def strBytes (s : List Char) : List Nat := s.map (fun c => c.toNat % 256)

/-- C3 counterexample: for the probe-string source `q|\n|` the stored probe
payload is the two raw characters backslash and `n` (bytes 92, 110), not
the decoded byte sequence `[10]` the claim asserts the parser stores; the
decoding to `[10]` only happens at send time. -/
theorem probe_payload_stored_undecoded :
    parse_probe_string "q|\\n|".toList = "\\n".toList ∧
    strBytes (parse_probe_string "q|\\n|".toList) = [92, 110] ∧
    decode_probe_string "\\n".toList = [10] ∧
    ([92, 110] : List Nat) ≠ [10] := by decide

/-- C3 amended: the stored probe payload is the raw text strictly between
the first and last occurrence of the `q`-delimiter, with escape sequences
left intact; they are resolved at send time, when `decode_probe_string` is
applied to the stored text per the byte-escape rules (backslash-n, -r, -t,
-0, double backslash, and `\xHH`). -/
theorem probe_payload_raw_between_delimiters (d : Char) (body : List Char)
    (hdq : d ≠ 'q') :
    parse_probe_string ('q' :: d :: (body ++ [d])) = body ∧
    sent_probe_payload (parse_probe_string ('q' :: d :: (body ++ [d])))
      = decode_probe_string body ∧
    decode_probe_string "\\n".toList = [10] ∧
    decode_probe_string "\\r".toList = [13] ∧
    decode_probe_string "\\t".toList = [9] ∧
    decode_probe_string "\\0".toList = [0] ∧
    decode_probe_string "\\\\".toList = [92] ∧
    decode_probe_string "\\x41".toList = [65] := by
  have hmain : parse_probe_string ('q' :: d :: (body ++ [d])) = body := by
    have hfind : strFind d ('q' :: d :: (body ++ [d])) = some 1 := by
      simp [strFind, Ne.symm hdq]
    have hrev : ('q' :: d :: (body ++ [d])).reverse
        = d :: (body.reverse ++ ['q', d].reverse) := by
      simp
    have hrfind : strRFind d ('q' :: d :: (body ++ [d]))
        = some (body.length + 2) := by
      unfold strRFind
      rw [hrev]
      simp [strFind]
    unfold parse_probe_string
    rw [if_pos (by simp)]
    show (match strFind d ('q' :: d :: (body ++ [d])),
            strRFind d ('q' :: d :: (body ++ [d])) with
      | some start, some stop =>
        if start ≠ stop
        then (('q' :: d :: (body ++ [d])).take stop).drop (start + 1)
        else 'q' :: d :: (body ++ [d])
      | _, _ => 'q' :: d :: (body ++ [d])) = body
    rw [hfind, hrfind]
    show (if (1 : Nat) ≠ body.length + 2
        then (('q' :: d :: (body ++ [d])).take (body.length + 2)).drop (1 + 1)
        else 'q' :: d :: (body ++ [d])) = body
    rw [if_pos (by omega)]
    have hsplit : 'q' :: d :: (body ++ [d]) = ('q' :: d :: body) ++ [d] := by
      simp
    rw [hsplit, show body.length + 2 = ('q' :: d :: body).length from by simp,
      List.take_left]
    rfl
  refine ⟨hmain, by rw [hmain]; rfl, by decide, by decide, by decide,
    by decide, by decide, by decide⟩

/-- Witness for `probe_payload_raw_between_delimiters` at the concrete
probe-string source `q|GET|`. -/
theorem probe_payload_raw_between_delimiters_witness :
    parse_probe_string "q|GET|".toList = "GET".toList :=
  (probe_payload_raw_between_delimiters '|' "GET".toList (by decide)).1

/-! ### Response matching and version-field substitution
(`src/core/probe/operator.rs` 167-270).  The `regex` crate is abstracted as
an engine sending a pattern either to `none` (compilation failure,
`Regex::new` returning `Err`) or to a matcher sending a response to its
captures (`none` meaning no match).  Captures follow the crate's API:
index 0 is the whole match, index `i > 0` is group `i`, with `none` for a
group that did not participate; `len()` counts all of these slots. -/

abbrev Captures := List (Option (List Char))

abbrev RegexEngine := List Char → Option (List Char → Option Captures)

/-- `MatchEntry` from `src/core/probe/parser.rs` 28-33 (the `version_info`
map is modelled as an association list; its keys are distinct). -/
structure MatchEntry where
  service : List Char
  pattern : List Char
  version_info : List (List Char × List Char)
deriving DecidableEq, Repr

/-- `ServiceInfo` from `src/core/probe/operator.rs` 13-24. -/
structure ServiceInfo where
  service : List Char
  version : Option (List Char)
  product : Option (List Char)
  extra_info : Option (List Char)
  hostname : Option (List Char)
  os_info : Option (List Char)
  device_type : Option (List Char)
  cpe : Option (List Char)
  confidence : Nat
deriving DecidableEq, Repr

/-- Rust `str::replace`: replace every non-overlapping occurrence of `pat`
in the subject, scanning left to right; replacement text is not rescanned.
(The degenerate empty pattern never arises here: the patterns used are
always `$` followed by digits.) -/
def replaceAll (pat w : List Char) : List Char → List Char
  | [] => []
  | c :: t =>
    if pat ≠ [] ∧ pat.isPrefixOf (c :: t) then
      w ++ replaceAll pat w (t.drop (pat.length - 1))
    else
      c :: replaceAll pat w t
termination_by l => l.length
decreasing_by
· simp only [List.length_drop, List.length_cons]
  omega
· simp

/-- `Prober::process_version_field` (`src/core/probe/operator.rs` 259-270):
for `i` from 1 up to (excluding) `captures.len()`, when group `i`
participated in the match, replace every occurrence of `$i` in the template
with that group's text. -/
def process_version_field (value : List Char) (captures : Captures) :
    List Char :=
  (List.range' 1 (captures.length - 1)).foldl
    (fun result i =>
      match captures.get? i with
      | some (some capture) =>
        replaceAll ('$' :: Nat.toDigits 10 i) capture result
      | _ => result)
    value

/-- The `match key.as_str()` statement of `Prober::match_response`
(`src/core/probe/operator.rs` 240-249). -/
def apply_version_field (si : ServiceInfo) (key processed : List Char) :
    ServiceInfo :=
  if key = "p".toList then { si with product := some processed }
  else if key = "v".toList then { si with version := some processed }
  else if key = "i".toList then { si with extra_info := some processed }
  else if key = "h".toList then { si with hostname := some processed }
  else if key = "o".toList then { si with os_info := some processed }
  else if key = "d".toList then { si with device_type := some processed }
  else if key = "cpe".toList then { si with cpe := some processed }
  else si

/-- `Prober::match_response` (`src/core/probe/operator.rs` 220-256): an
uncompilable pattern or a non-matching regex yields `none`; a match yields
a `ServiceInfo` built with confidence 90 and the version fields filled from
the entry's `version_info` templates. -/
def match_response (engine : RegexEngine) (response : List Char)
    (entry : MatchEntry) : Option ServiceInfo :=
  match engine entry.pattern with
  | none => none
  | some regex =>
    match regex response with
    | none => none
    | some captures =>
      some (entry.version_info.foldl
        (fun si kv =>
          apply_version_field si kv.1 (process_version_field kv.2 captures))
        { service := entry.service, version := none, product := none,
          extra_info := none, hostname := none, os_info := none,
          device_type := none, cpe := none, confidence := 90 })

/-- The response-processing tail of `Prober::try_probe`
(`src/core/probe/operator.rs` 201-216): hard matches are tried first in
list order, then soft matches in list order with the confidence overridden
to 50; the first success is returned. -/
def try_probe_match (engine : RegexEngine) (response : List Char)
    (hard_matches soft_matches : List MatchEntry) : Option ServiceInfo :=
  match hard_matches.findSome? (fun m => match_response engine response m) with
  | some si => some si
  | none =>
    match soft_matches.findSome? (fun m => match_response engine response m)
      with
    | some si => some { si with confidence := 50 }
    | none => none

lemma apply_version_field_confidence (si : ServiceInfo)
    (key processed : List Char) :
    (apply_version_field si key processed).confidence = si.confidence := by
  unfold apply_version_field
  split_ifs <;> rfl

lemma apply_version_field_service (si : ServiceInfo)
    (key processed : List Char) :
    (apply_version_field si key processed).service = si.service := by
  unfold apply_version_field
  split_ifs <;> rfl

lemma version_fold_confidence (captures : Captures)
    (l : List (List Char × List Char)) (si : ServiceInfo) :
    (l.foldl
      (fun si kv =>
        apply_version_field si kv.1 (process_version_field kv.2 captures))
      si).confidence = si.confidence := by
  induction l generalizing si with
  | nil => rfl
  | cons kv t ih =>
    rw [List.foldl_cons, ih, apply_version_field_confidence]

lemma match_response_confidence (engine : RegexEngine) (response : List Char)
    (entry : MatchEntry) (si : ServiceInfo)
    (h : match_response engine response entry = some si) :
    si.confidence = 90 := by
  unfold match_response at h
  split at h
  · cases h
  · split at h
    · cases h
    · have hx := Option.some.inj h
      subst hx
      rw [version_fold_confidence]

lemma findSome?_append_none {α β : Type} (f : α → Option β)
    (pre rest : List α) (h : ∀ x ∈ pre, f x = none) :
    (pre ++ rest).findSome? f = rest.findSome? f := by
  induction pre with
  | nil => rfl
  | cons a t ih =>
    rw [List.cons_append, List.findSome?_cons, h a (List.mem_cons_self a t),
      ih (fun x hx => h x (List.mem_cons_of_mem a hx))]

lemma findSome?_middle_none {α β : Type} (f : α → Option β)
    (pre post : List α) (e : α) (he : f e = none) :
    (pre ++ e :: post).findSome? f = (pre ++ post).findSome? f := by
  induction pre with
  | nil => rw [List.nil_append, List.nil_append, List.findSome?_cons, he]
  | cons a t ih =>
    rw [List.cons_append, List.cons_append, List.findSome?_cons,
      List.findSome?_cons, ih]

/-- C4: for every engine and response, hard matches are evaluated in list
order before any soft match; the first hard match to succeed yields its
`ServiceInfo` with confidence exactly 90 and stops processing; soft matches
are consulted, in list order, only when every hard match fails, and the
first success yields confidence exactly 50 and stops processing (entries
after the winner, in either list, are never consulted: the result is
independent of them). -/
theorem match_precedence (engine : RegexEngine) (response : List Char) :
    (∀ (pre post soft : List MatchEntry) (e : MatchEntry) (si : ServiceInfo),
      (∀ x ∈ pre, match_response engine response x = none) →
      match_response engine response e = some si →
      try_probe_match engine response (pre ++ e :: post) soft = some si ∧
        si.confidence = 90) ∧
    (∀ (hard spre spost : List MatchEntry) (e : MatchEntry)
        (si : ServiceInfo),
      (∀ x ∈ hard, match_response engine response x = none) →
      (∀ x ∈ spre, match_response engine response x = none) →
      match_response engine response e = some si →
      try_probe_match engine response hard (spre ++ e :: spost)
        = some { si with confidence := 50 }) := by
  constructor
  · intro pre post soft e si hpre he
    refine ⟨?_, match_response_confidence engine response e si he⟩
    unfold try_probe_match
    rw [findSome?_append_none _ pre (e :: post) hpre, List.findSome?_cons, he]
  · intro hard spre spost e si hhard hspre he
    unfold try_probe_match
    rw [List.findSome?_eq_none_iff.mpr hhard,
      findSome?_append_none _ spre (e :: spost) hspre, List.findSome?_cons,
      he]

/-- A concrete regex engine used to witness the matching theorems: the
pattern `BAD(` fails to compile; any other pattern matches exactly the
responses it prefixes, with one capture slot (the whole match). -/
def prefixEngine : RegexEngine := fun pattern =>
  if pattern = "BAD(".toList then none
  else some (fun response =>
    if pattern.isPrefixOf response then some [some response] else none)

def entrySSH : MatchEntry :=
  { service := "ssh".toList, pattern := "SSH".toList, version_info := [] }

def entryHTTP : MatchEntry :=
  { service := "http".toList, pattern := "HTTP".toList, version_info := [] }

def entryBad : MatchEntry :=
  { service := "bad".toList, pattern := "BAD(".toList, version_info := [] }

def serviceSSH90 : ServiceInfo :=
  { service := "ssh".toList, version := none, product := none,
    extra_info := none, hostname := none, os_info := none,
    device_type := none, cpe := none, confidence := 90 }

/-- Witness for `match_precedence`: against response `SSH-2.0`, the entry
list `[entryHTTP, entrySSH]` yields ssh at confidence 90 (hard branch), and
with no hard entries the soft list `[entryHTTP, entrySSH]` yields ssh at
confidence 50 (soft branch). -/
theorem match_precedence_witness :
    (try_probe_match prefixEngine "SSH-2.0".toList [entryHTTP, entrySSH] []
        = some serviceSSH90 ∧
      serviceSSH90.confidence = 90) ∧
    try_probe_match prefixEngine "SSH-2.0".toList [] [entryHTTP, entrySSH]
      = some { serviceSSH90 with confidence := 50 } :=
  ⟨(match_precedence prefixEngine "SSH-2.0".toList).1 [entryHTTP] [] []
      entrySSH serviceSSH90 (by decide) (by decide),
    (match_precedence prefixEngine "SSH-2.0".toList).2 [] [entryHTTP] []
      entrySSH serviceSSH90 (by decide) (by decide) (by decide)⟩

/-- C10: an entry whose pattern does not compile behaves as a plain
non-match: `match_response` returns `none`, and deleting the entry from
either the hard or the soft list leaves the result of response processing
unchanged — an invalid pattern in the probe database never fails or aborts
service detection (every function involved is total). -/
theorem invalid_pattern_is_nonmatch (engine : RegexEngine)
    (response : List Char) (e : MatchEntry)
    (he : engine e.pattern = none) :
    match_response engine response e = none ∧
    (∀ (pre post soft : List MatchEntry),
      try_probe_match engine response (pre ++ e :: post) soft
        = try_probe_match engine response (pre ++ post) soft) ∧
    (∀ (hard spre spost : List MatchEntry),
      try_probe_match engine response hard (spre ++ e :: spost)
        = try_probe_match engine response hard (spre ++ spost)) := by
  have hnone : match_response engine response e = none := by
    unfold match_response
    rw [he]
  refine ⟨hnone, ?_, ?_⟩
  · intro pre post soft
    unfold try_probe_match
    rw [findSome?_middle_none _ pre post e hnone]
  · intro hard spre spost
    unfold try_probe_match
    rw [findSome?_middle_none _ spre spost e hnone]

/-- Witness for `invalid_pattern_is_nonmatch`: with the uncompilable entry
`BAD(` placed ahead of the ssh entry, detection still succeeds exactly as
without it. -/
theorem invalid_pattern_is_nonmatch_witness :
    match_response prefixEngine "SSH-2.0".toList entryBad = none ∧
    try_probe_match prefixEngine "SSH-2.0".toList [entryBad, entrySSH] []
      = try_probe_match prefixEngine "SSH-2.0".toList [entrySSH] [] := by
  have h := invalid_pattern_is_nonmatch prefixEngine "SSH-2.0".toList
    entryBad rfl
  exact ⟨h.1, h.2.1 [] [entrySSH] []⟩

lemma replaceAll_cons_of_not_prefix (pat w : List Char) (c : Char)
    (t : List Char) (h : pat.isPrefixOf (c :: t) = false) :
    replaceAll pat w (c :: t) = c :: replaceAll pat w t := by
  simp only [replaceAll]
  rw [if_neg (by simp [h])]

lemma replaceAll_head (p' w rest : List Char) :
    replaceAll ('$' :: p') w (('$' :: p') ++ rest)
      = w ++ replaceAll ('$' :: p') w rest := by
  have hp : ('$' :: p').isPrefixOf ('$' :: (p' ++ rest)) = true :=
    List.isPrefixOf_iff_prefix.mpr (List.prefix_append _ _)
  rw [List.cons_append]
  simp only [replaceAll]
  rw [if_pos ⟨List.cons_ne_nil _ _, hp⟩]
  congr 1
  rw [show ('$' :: p').length - 1 = p'.length from by simp, List.drop_left]

lemma not_prefix_of_head_ne {p' : List Char} {c : Char} {t : List Char}
    (hcd : ¬ ('$' = c)) : ('$' :: p').isPrefixOf (c :: t) = false := by
  rw [show (('$' :: p').isPrefixOf (c :: t))
      = ('$' == c && p'.isPrefixOf t) from rfl,
    beq_eq_false_iff_ne.mpr hcd, Bool.false_and]

lemma replaceAll_append_not_mem (p' w pre rest : List Char)
    (h : '$' ∉ pre) :
    replaceAll ('$' :: p') w (pre ++ rest)
      = pre ++ replaceAll ('$' :: p') w rest := by
  induction pre with
  | nil => rw [List.nil_append, List.nil_append]
  | cons c t ih =>
    have hcd : ¬ ('$' = c) := fun hcd => h (by rw [← hcd]; exact List.mem_cons_self _ _)
    rw [List.cons_append,
      replaceAll_cons_of_not_prefix _ _ _ _ (not_prefix_of_head_ne hcd),
      ih (fun hm => h (List.mem_cons_of_mem c hm)), List.cons_append]

lemma replaceAll_not_mem (p' w s : List Char) (h : '$' ∉ s) :
    replaceAll ('$' :: p') w s = s := by
  have h0 := replaceAll_append_not_mem p' w s [] h
  rw [List.append_nil] at h0
  rw [h0, show replaceAll ('$' :: p') w [] = [] from by simp [replaceAll],
    List.append_nil]

/-- C5 counterexample: with two capture slots (the whole match plus one
group) where group 1 did not participate, the template `$1` is left as
literal text — not replaced by the empty string as the claim asserts. -/
theorem capture_nonparticipating_left_literal :
    process_version_field "$1".toList [some "m".toList, none] = "$1".toList ∧
    "$1".toList ≠ ([] : List Char) := by decide

/-- The substitution pass for one capture-group index, written from the
amended claim's words: when group `n` participated in the match, replace
every literal occurrence of `$n` in the current text with that group's
matched text; otherwise change nothing. -/
def claimedPass (captures : Captures) (n : Nat) (text : List Char) :
    List Char :=
  match captures.get? n with
  | some (some capture) => replaceAll ('$' :: Nat.toDigits 10 n) capture text
  | _ => text

/-- The amended claim's processing order: one pass per group index, applied
in ascending order 1, 2, ..., `m`, each pass scanning the text produced by
the previous passes. -/
def claimedPasses (captures : Captures) : Nat → List Char → List Char
  | 0, text => text
  | m + 1, text => claimedPass captures (m + 1) (claimedPasses captures m text)

lemma foldl_range'_eq_claimedPasses (captures : Captures) (m : Nat)
    (value : List Char) :
    (List.range' 1 m).foldl (fun result i => claimedPass captures i result)
      value = claimedPasses captures m value := by
  induction m with
  | zero => rfl
  | succ k ih =>
    rw [List.range'_concat, show 1 + 1 * k = k + 1 from by omega,
      List.foldl_append, List.foldl_cons, List.foldl_nil, ih]
    rfl

/-- C5 amended: for every version-field template and every successful
match, the template is processed by one textual replacement pass per
capture-group index, in ascending order from 1 up to the number of capture
groups: the pass for a group that participated in the match replaces every
literal occurrence of `$N` in the current text (text introduced by earlier
passes included) with that group's matched text; the pass for a group that
did not participate replaces nothing, leaving its `$N` occurrences as
literal text; and no pass exists for `$N` beyond the available group count,
so those occurrences are not substituted either. -/
theorem capture_substitution_semantics (value : List Char)
    (captures : Captures) :
    process_version_field value captures
      = claimedPasses captures (captures.length - 1) value ∧
    (∀ (n : Nat) (w text : List Char), captures.get? n = some (some w) →
      claimedPass captures n text
        = replaceAll ('$' :: Nat.toDigits 10 n) w text) ∧
    (∀ (n : Nat) (text : List Char), captures.get? n = some none →
      claimedPass captures n text = text) ∧
    (∀ (n : Nat) (text : List Char), captures.length ≤ n →
      claimedPass captures n text = text) := by
  refine ⟨?_, ?_, ?_, ?_⟩
  · exact foldl_range'_eq_claimedPasses captures (captures.length - 1) value
  · intro n w text h
    unfold claimedPass
    rw [h]
  · intro n text h
    unfold claimedPass
    rw [h]
  · intro n text h
    unfold claimedPass
    rw [List.get?_eq_none.mpr h]

/-- Witness for `capture_substitution_semantics` at concrete inputs: a
participating group's pass is the textual replacement, a non-participating
group's pass is a no-op, and an out-of-range index's pass is a no-op. -/
theorem capture_substitution_semantics_witness :
    claimedPass [some [], some "a".toList] 1 "$1".toList
      = replaceAll ('$' :: Nat.toDigits 10 1) "a".toList "$1".toList ∧
    claimedPass [some "m".toList, none] 1 "$1".toList = "$1".toList ∧
    claimedPass [some [], some "a".toList] 2 "$2".toList = "$2".toList :=
  ⟨(capture_substitution_semantics "$1".toList
      [some [], some "a".toList]).2.1 1 "a".toList "$1".toList rfl,
    (capture_substitution_semantics "$1".toList
      [some "m".toList, none]).2.2.1 1 "$1".toList rfl,
    (capture_substitution_semantics "$2".toList
      [some [], some "a".toList]).2.2.2 2 "$2".toList (by decide)⟩

/-! ### The per-port TCP task (`src/core/tcp.rs` 116-198)
Order of events inside one spawned async block: the permit is acquired at
line 118; the connect attempt resolves in the `match` at lines 120-196;
service detection — when enabled and the target parses as an IP — runs at
lines 129-150, inside the same block, only in the successful-connect arm;
the permit binding `_permit` is dropped when the block ends (line 197),
i.e. after service detection. -/

inductive TaskEvent where
  | acquirePermit
  | connectResolved
  | serviceDetection
  | releasePermit
deriving DecidableEq, Repr

/-- The sequence of events of one per-port task in `syn_scan`, as a
function of the connect outcome and whether service detection runs (the
`service_detection` flag, with the target parseable as an IP). -/
def syn_scan_task_events (outcome : ConnectOutcome)
    (detectionEnabled : Bool) : List TaskEvent :=
  [TaskEvent.acquirePermit, TaskEvent.connectResolved]
    ++ (match outcome with
        | .success =>
          if detectionEnabled then [TaskEvent.serviceDetection] else []
        | _ => [])
    ++ [TaskEvent.releasePermit]

/-- C7 counterexample: in the successful-connect case with service
detection enabled, the per-port task performs service detection *before*
releasing its permit — the claim's trace, with the permit released
immediately after the connect resolves and detection outside the gate, is
not the code's trace. -/
theorem service_detection_inside_permit :
    syn_scan_task_events .success true
      = [TaskEvent.acquirePermit, TaskEvent.connectResolved,
         TaskEvent.serviceDetection, TaskEvent.releasePermit] ∧
    syn_scan_task_events .success true
      ≠ [TaskEvent.acquirePermit, TaskEvent.connectResolved,
         TaskEvent.releasePermit, TaskEvent.serviceDetection] := by decide

/-- C7 amended: the permit is acquired first and released only at the very
end of the per-port task — exactly once, after the connect attempt resolves
and after any service-detection work — so service detection happens inside,
not outside, the concurrency gate. -/
theorem permit_released_at_task_end (outcome : ConnectOutcome)
    (detectionEnabled : Bool) :
    (syn_scan_task_events outcome detectionEnabled).head?
      = some TaskEvent.acquirePermit ∧
    (syn_scan_task_events outcome detectionEnabled).getLast?
      = some TaskEvent.releasePermit ∧
    (syn_scan_task_events outcome detectionEnabled).count
      TaskEvent.releasePermit = 1 := by
  cases outcome <;> cases detectionEnabled <;> exact ⟨rfl, rfl, rfl⟩

/-! ### The global concurrency budget (`src/core/tcp.rs` 289-305, 116-118)
`exec` creates a single `Semaphore::new(threads)` (line 292) shared through
`Arc` clones with every per-target `syn_scan` call (line 297) and, inside
`syn_scan`, with every per-port task (line 112); each task acquires one
permit before its connect attempt (line 118) and holds it to the end of its
block.  The semaphore is modelled as a counter of available permits and the
per-port units of work (across all targets) as a list of phases. -/

inductive TaskPhase where
  | waiting
  | connecting
  | detecting
  | finished
deriving DecidableEq, Repr

/-- Phases during which a unit holds a permit (from acquisition to the end
of its block, per `syn_scan_task_events`). -/
def holdsPermit : TaskPhase → Bool
  | .waiting => false
  | .connecting => true
  | .detecting => true
  | .finished => false

/-- A unit is in-flight while its connect attempt is unresolved. -/
def inFlight : TaskPhase → Bool
  | .connecting => true
  | _ => false

structure ScanState where
  tasks : List TaskPhase
  available : Nat
deriving DecidableEq, Repr

/-- Initial state of a run with concurrency limit `n` and `units` per-port
units of work summed over all targets. -/
def initState (n units : Nat) : ScanState :=
  { tasks := List.replicate units TaskPhase.waiting, available := n }

/-- Transitions of the permit discipline: acquiring a permit requires one
to be available and is the only way to start connecting; the permit is
given back only when the task block finishes. -/
inductive ScanStep : ScanState → ScanState → Prop where
  | acquire (s : ScanState) (i : Nat)
      (h : s.tasks.get? i = some TaskPhase.waiting) (hn : 0 < s.available) :
      ScanStep s { tasks := s.tasks.set i TaskPhase.connecting,
                   available := s.available - 1 }
  | connectResolve (s : ScanState) (i : Nat)
      (h : s.tasks.get? i = some TaskPhase.connecting) :
      ScanStep s { s with tasks := s.tasks.set i TaskPhase.detecting }
  | finish (s : ScanState) (i : Nat)
      (h : s.tasks.get? i = some TaskPhase.detecting) :
      ScanStep s { tasks := s.tasks.set i TaskPhase.finished,
                   available := s.available + 1 }

/-- States reachable from the start of a scan. -/
inductive Reachable (n units : Nat) : ScanState → Prop where
  | init : Reachable n units (initState n units)
  | step {s t : ScanState} (hs : Reachable n units s)
      (hstep : ScanStep s t) : Reachable n units t

def holdersL (l : List TaskPhase) : Nat := l.countP (fun p => holdsPermit p)

def inFlightL (l : List TaskPhase) : Nat := l.countP (fun p => inFlight p)

def permitHolders (s : ScanState) : Nat := holdersL s.tasks

def inFlightCount (s : ScanState) : Nat := inFlightL s.tasks

lemma countP_set {α : Type} (p : α → Bool) (l : List α) (i : Nat) (a b : α)
    (h : l.get? i = some a) :
    (l.set i b).countP p + (if p a then 1 else 0)
      = l.countP p + (if p b then 1 else 0) := by
  induction l generalizing i with
  | nil => cases h
  | cons c t ih =>
    cases i with
    | zero =>
      have hac : a = c := by
        have := h
        simp only [List.get?_cons_zero, Option.some.injEq] at this
        exact this.symm
      subst hac
      rw [List.set_cons_zero, List.countP_cons, List.countP_cons]
      omega
    | succ j =>
      have hj : t.get? j = some a := h
      rw [List.set_cons_succ, List.countP_cons, List.countP_cons]
      have := ih j hj
      omega

lemma holdersL_set (l : List TaskPhase) (i : Nat) (a b : TaskPhase)
    (h : l.get? i = some a) :
    holdersL (l.set i b) + (if holdsPermit a then 1 else 0)
      = holdersL l + (if holdsPermit b then 1 else 0) :=
  countP_set _ l i a b h

lemma permit_invariant (n units : Nat) (s : ScanState)
    (hs : Reachable n units s) : s.available + permitHolders s = n := by
  induction hs with
  | init =>
    unfold initState permitHolders holdersL
    rw [List.countP_replicate]
    simp [holdsPermit]
  | step hs hstep ih =>
    cases hstep with
    | acquire i h hn =>
      have hc := holdersL_set _ i TaskPhase.waiting TaskPhase.connecting h
      rw [show (if holdsPermit TaskPhase.waiting then (1 : Nat) else 0) = 0
          from rfl,
        show (if holdsPermit TaskPhase.connecting then (1 : Nat) else 0) = 1
          from rfl] at hc
      simp only [permitHolders] at ih ⊢
      omega
    | connectResolve i h =>
      have hc := holdersL_set _ i TaskPhase.connecting TaskPhase.detecting h
      rw [show (if holdsPermit TaskPhase.connecting then (1 : Nat) else 0) = 1
          from rfl,
        show (if holdsPermit TaskPhase.detecting then (1 : Nat) else 0) = 1
          from rfl] at hc
      simp only [permitHolders] at ih ⊢
      omega
    | finish i h =>
      have hc := holdersL_set _ i TaskPhase.detecting TaskPhase.finished h
      rw [show (if holdsPermit TaskPhase.detecting then (1 : Nat) else 0) = 1
          from rfl,
        show (if holdsPermit TaskPhase.finished then (1 : Nat) else 0) = 0
          from rfl] at hc
      simp only [permitHolders] at ih ⊢
      omega

/-- C6: in every reachable state of a TCP scan run with concurrency limit
`n` — any number of per-port units of work across all targets, all drawing
permits from the one shared pool — the number of simultaneously in-flight
connection attempts never exceeds `n`: each connecting unit holds a permit,
and available permits plus held permits always equal `n`. -/
theorem concurrency_bound (n units : Nat) (s : ScanState)
    (hs : Reachable n units s) :
    inFlightCount s ≤ n ∧ s.available + permitHolders s = n := by
  have hinv := permit_invariant n units s hs
  refine ⟨?_, hinv⟩
  have hmono : inFlightCount s ≤ permitHolders s := by
    unfold inFlightCount permitHolders inFlightL holdersL
    apply List.countP_mono_left
    intro x _ hx
    cases x <;> first | rfl | cases hx
  omega

/-- Witness for `concurrency_bound`: after one unit (of three) acquires a
permit under limit 2, one connection is in flight, within the bound. -/
theorem concurrency_bound_witness :
    inFlightCount { tasks := [TaskPhase.connecting, TaskPhase.waiting,
        TaskPhase.waiting], available := 1 } ≤ 2 :=
  (concurrency_bound 2 3 _ (Reachable.step Reachable.init
    (ScanStep.acquire (initState 2 3) 0 (by decide) (by decide)))).1

/-! ### UDP per-port classification (`src/core/udp.rs` 88-127) and
multi-target result merging (`src/core/udp.rs` 182-207). -/

/-- `UdpPortState` from `src/core/udp.rs` 19-23. -/
inductive UdpPortState where
  | Open
  | Closed
deriving DecidableEq, Repr

/-- Outcome of the `recv` await in `scan_udp_port`: a datagram before the
deadline, an OS receive error, or the `timeout` firing. -/
inductive RecvOutcome where
  | received
  | recvError
  | timedOut
deriving DecidableEq, Repr

/-- The observable outcome of one UDP port probe: the first failing step
among bind (`udp.rs` 92-95), the association `connect` (line 100), the
probe send (line 106), or else the receive outcome (lines 112-126). -/
inductive UdpAttemptOutcome where
  | bindError
  | connectError
  | sendError
  | recv (r : RecvOutcome)
deriving DecidableEq, Repr

/-- `UDPScanner::scan_udp_port` (`src/core/udp.rs` 88-127) transliterated
over the attempt outcome: every early error returns Closed; a received
datagram returns Open; a receive error returns Closed; a receive timeout
returns Open.  A total function: no outcome is an error. -/
def scan_udp_port : UdpAttemptOutcome → UdpPortState
  | .bindError => .Closed
  | .connectError => .Closed
  | .sendError => .Closed
  | .recv .received => .Open
  | .recv .recvError => .Closed
  | .recv .timedOut => .Open

/-- C8 counterexample: a failure of `socket.connect` — associating the UDP
socket with the target (`src/core/udp.rs` line 100) — also yields Closed,
an outcome the claim's "Closed exactly when the bind, the send, or the
receive fails" enumeration omits, so the "exactly" is false at this
outcome. -/
theorem udp_connect_error_also_closed :
    scan_udp_port .connectError = .Closed ∧
    (UdpAttemptOutcome.connectError ≠ .bindError ∧
     UdpAttemptOutcome.connectError ≠ .sendError ∧
     UdpAttemptOutcome.connectError ≠ .recv .recvError) := by decide

/-- C8 amended: a UDP port is Open exactly when a datagram arrives before
the deadline or the receive times out, and Closed exactly when the bind,
the association (`connect`), the send, or the receive fails; the
classification is a total function of the outcome, so no per-port UDP
outcome ever propagates as an error. -/
theorem udp_port_classification (o : UdpAttemptOutcome) :
    (scan_udp_port o = .Open ↔
      o = .recv .received ∨ o = .recv .timedOut) ∧
    (scan_udp_port o = .Closed ↔
      o = .bindError ∨ o = .connectError ∨ o = .sendError ∨
        o = .recv .recvError) := by
  cases o with
  | bindError => decide
  | connectError => decide
  | sendError => decide
  | recv r => cases r <;> decide

/-- UDP result maps (`UDPScanResult = HashMap<u16, UdpPortState>`) modelled
as functions from port number to an optional state. -/
abbrev UdpResultMap := Nat → Option UdpPortState

/-- `HashMap::insert`. -/
def mapInsert (m : UdpResultMap) (k : Nat) (v : UdpPortState) :
    UdpResultMap :=
  fun q => if q = k then some v else m q

/-- `UDPScanner::fire_and_forget` (`src/core/udp.rs` 62-86) at the result
level: given the per-(target, port) outcome classification `scanOne`, probe
each port of one target in order and insert its state into a map keyed by
port number alone. -/
def fire_and_forget (scanOne : List Char → Nat → UdpPortState)
    (target : List Char) (ports : List Nat) : UdpResultMap :=
  ports.foldl (fun results port => mapInsert results port (scanOne target port))
    (fun _ => none)

/-- `UDPScanner::udp_scan` (`src/core/udp.rs` 182-207): scan each target in
order and merge every (port, state) pair of its result into one combined
map by insertion, so later targets overwrite earlier ones at the same
port. -/
def udp_scan (scanOne : List Char → Nat → UdpPortState)
    (targets : List (List Char)) (ports : List Nat) : UdpResultMap :=
  targets.foldl
    (fun combined target => fun q =>
      match fire_and_forget scanOne target ports q with
      | some st => some st
      | none => combined q)
    (fun _ => none)

lemma insertAll_lookup (scanOne : List Char → Nat → UdpPortState)
    (t : List Char) (ports : List Nat) (m : UdpResultMap) (q : Nat) :
    (ports.foldl (fun r p => mapInsert r p (scanOne t p)) m) q
      = if q ∈ ports then some (scanOne t q) else m q := by
  induction ports generalizing m with
  | nil => simp
  | cons p rest ih =>
    rw [List.foldl_cons, ih]
    by_cases hq : q ∈ rest
    · rw [if_pos hq, if_pos (List.mem_cons_of_mem p hq)]
    · rw [if_neg hq]
      unfold mapInsert
      by_cases hqp : q = p
      · subst hqp
        rw [if_pos rfl, if_pos (List.mem_cons_self q rest)]
      · rw [if_neg hqp, if_neg (by simp [hqp, hq])]

lemma fire_and_forget_lookup (scanOne : List Char → Nat → UdpPortState)
    (t : List Char) (ports : List Nat) (q : Nat) (hq : q ∈ ports) :
    fire_and_forget scanOne t ports q = some (scanOne t q) := by
  unfold fire_and_forget
  rw [insertAll_lookup, if_pos hq]

/-- C9: a UDP scan over several targets merges all targets' results into a
single map keyed only by the port number — for any scanned port the
reported state is the one from the last target scanned, regardless of what
any earlier target reported for that port; per-target results are not kept
separate. -/
theorem udp_multi_target_last_wins
    (scanOne : List Char → Nat → UdpPortState) (ts : List (List Char))
    (tl : List Char) (ports : List Nat) (q : Nat) (hq : q ∈ ports) :
    udp_scan scanOne (ts ++ [tl]) ports q = some (scanOne tl q) := by
  unfold udp_scan
  rw [List.foldl_append, List.foldl_cons, List.foldl_nil]
  show (match fire_and_forget scanOne tl ports q with
    | some st => some st
    | none =>
      (ts.foldl
        (fun combined target => fun q =>
          match fire_and_forget scanOne target ports q with
          | some st => some st
          | none => combined q)
        (fun _ => none)) q) = some (scanOne tl q)
  rw [fire_and_forget_lookup scanOne tl ports q hq]

/-- Witness for `udp_multi_target_last_wins`: two targets disagreeing on
port 53 — the combined map reports the second (last) target's state. -/
theorem udp_multi_target_last_wins_witness :
    udp_scan
      (fun t p => if t = "a".toList ∧ p = 53 then .Open else .Closed)
      ["a".toList, "b".toList] [53] 53 = some UdpPortState.Closed :=
  udp_multi_target_last_wins
    (fun t p => if t = "a".toList ∧ p = 53 then .Open else .Closed)
    ["a".toList] "b".toList [53] 53 (by decide)

end Rmap
